import Mathlib

/-!
Shallow embedding of the route-performance estimator and the constrained
path-exploration engine of the `uurs24` regatta planner (src/optimize.rs,
with the graph builder of src/data.rs).

Machine floats (`f64`) are modelled as real numbers, `u8` usage counters as
naturals kept below 256 with an explicit `% 256` on every store, `u32`
maxima as naturals truncated by `% 256` exactly where the source casts
(`max_usage as u8`), and `usize` as naturals with `usize::MAX = 2^64 - 1`.
`Result<_, Box<dyn Error>>` becomes `Except String _`.  Rust's panicking
indexing / `Option::unwrap` is modelled with `getD` defaults; every theorem
that depends on an indexed value assumes the index valid, matching the
callers.  The field `from` of the Rust structs is a Lean keyword and is
rendered `from_`.
-/

namespace Uurs24

/-- A buoy (`Boei` of src/data.rs); only the fields the core reads are kept:
the name (graph identity), the node tag, and the parsed decimal-degree
coordinates. -/
structure Boei where
  name : String
  buoy_type : Option String
  lat : Option ℝ
  long : Option ℝ
deriving Inhabited

/-- A start line (`Start` of src/data.rs): endpoints by buoy name, distance
in nautical miles, and the configured maximum traversal count (`u32`). -/
structure Start where
  from_ : String
  to_ : String
  distance : ℝ
  max_number : ℕ
deriving Inhabited

/-- A leg (`Rak` of src/data.rs): endpoints by buoy name, distance, and the
configured maximum traversal count (`u32`). -/
structure Rak where
  from_ : String
  to_ : String
  distance : ℝ
  max_number : ℕ
deriving Inhabited

/-- One wind sample as returned by the wind lookup: speed in knots and the
direction the wind comes from, in degrees. -/
structure WindCondition where
  wind_speed : ℝ
  wind_angle : ℝ

/-- The loaded dataset (`RegattaData`).  The buoy list, start list and leg
list are taken from src/data.rs.

The snapshot's src/data.rs predates the wind schedule and the total polar
lookup that src/optimize.rs calls, so those two collaborators are kept
abstract here:

* `windAt` — Modelled from the spec: `WindData::get_wind_at_time` together
  with its nearest-hour and hour-0 fallbacks (§4.3, §4.5 step 3); the
  fallback chain always produces a sample, so the lookup is modelled as a
  total function from query time to a wind condition.
* `polarSpeed` — Modelled from the spec: `PolarData::get_boat_speed`
  (nearest-neighbour two-axis lookup, §4.2), a total function from
  (relative bearing, wind speed) to boat speed in knots. -/
structure RegattaData where
  boeien : List Boei
  starts : List Start
  rakken : List Rak
  windAt : ℝ → WindCondition
  polarSpeed : ℝ → ℝ → ℝ

/-- An edge of the route graph (`RegattaEdge` plus the petgraph endpoints).
`is_start` and `index` tag the originating entity, as required by
src/optimize.rs (the tagged `RegattaEdge` definition itself is absent from
the snapshot's src/data.rs; the tags follow spec §3 RouteGraph). -/
structure GEdge where
  src : ℕ
  dst : ℕ
  distance : ℝ
  is_start : Bool
  index : ℕ

/-- Name resolution of `build_regatta_graph`: the `HashMap` from buoy name
to node index is filled in buoy order with overwriting inserts, so a name
resolves to the LAST buoy index carrying it. -/
def resolveName (bs : List Boei) (n : String) : Option ℕ :=
  (((List.range bs.length).filter (fun i => (bs.getD i default).name = n)).getLast?)

/-- Edges contributed by the start lines (`build_regatta_graph`, first
loop): one directed edge per start whose two endpoint names resolve. -/
def startGEdges (d : RegattaData) : List GEdge :=
  (List.range d.starts.length).filterMap (fun i =>
    let s := d.starts.getD i default
    match resolveName d.boeien s.from_, resolveName d.boeien s.to_ with
    | some a, some b => some ⟨a, b, s.distance, true, i⟩
    | _, _ => none)

/-- Edges contributed by the legs (`build_regatta_graph`, second loop):
a forward and a reverse directed edge per leg whose endpoints resolve,
both carrying the same entity index. -/
def rakGEdges (d : RegattaData) : List GEdge :=
  (List.range d.rakken.length).flatMap (fun j =>
    let r := d.rakken.getD j default
    match resolveName d.boeien r.from_, resolveName d.boeien r.to_ with
    | some a, some b => [⟨a, b, r.distance, false, j⟩, ⟨b, a, r.distance, false, j⟩]
    | _, _ => [])

/-- The full edge list of `build_regatta_graph`, in insertion order:
start edges first, then the leg edges. -/
def graphEdgeList (d : RegattaData) : List GEdge :=
  startGEdges d ++ rakGEdges d

/-- `graph.edges(v)` of petgraph: the outgoing edges of node `v`.  petgraph
keeps per-node adjacency as a prepend-list, so iteration yields edges in
reverse insertion order. -/
def outEdges (d : RegattaData) (v : ℕ) : List GEdge :=
  ((graphEdgeList d).filter (fun e => e.src = v)).reverse

/-- The combined usage-vector slot of an edge: start entities first, then
leg entities offset by the number of starts (src/optimize.rs lines 168-173
and 325-330). -/
def entityIdx (d : RegattaData) (e : GEdge) : ℕ :=
  if e.is_start then e.index else d.starts.length + e.index

/-- The configured maximum of combined entity `i` (`max_number`, as `u32`,
hence a plain natural here; the truncating `as u8` cast of the source is
applied at the comparison sites, not here). -/
def entityMax (d : RegattaData) (i : ℕ) : ℕ :=
  if i < d.starts.length then (d.starts.getD i default).max_number
  else (d.rakken.getD (i - d.starts.length) default).max_number

/-- Rust's `f64::atan2 y x`, idealized over ℝ: the argument of the complex
number `x + y·i`, in `(-π, π]`. -/
noncomputable def atan2 (y x : ℝ) : ℝ :=
  Complex.arg ⟨x, y⟩

/-- Rust's `f64` `%` operator (truncated remainder, sign of the dividend),
idealized over ℝ. -/
noncomputable def rustRem (x y : ℝ) : ℝ :=
  x - y * (if 0 ≤ x / y then ((⌊x / y⌋ : ℤ) : ℝ) else ((⌈x / y⌉ : ℤ) : ℝ))

/-- Result record of the estimator (`LegPerformance`). -/
structure LegPerformance where
  estimated_speed : ℝ
  course_bearing : ℝ
  wind_direction : ℝ
  relative_bearing : ℝ
  wind_speed : ℝ

/-- `estimate_leg_performance` (src/optimize.rs lines 41-99): great-circle
initial bearing, wind lookup at the query time, reflection of the
wind-relative bearing into [0,180], polar-table speed lookup. -/
noncomputable def estimate_leg_performance (data : RegattaData) (from_ to_ : ℕ)
    (time : ℝ) : LegPerformance :=
  let source := data.boeien.getD from_ default
  let target := data.boeien.getD to_ default
  let s_lat := source.lat.getD 0 * Real.pi / 180
  let s_lon := source.long.getD 0 * Real.pi / 180
  let t_lat := target.lat.getD 0 * Real.pi / 180
  let t_lon := target.long.getD 0 * Real.pi / 180
  let d_lon := t_lon - s_lon
  let course_bearing0 :=
    atan2 (Real.sin d_lon * Real.cos t_lat)
      (Real.cos s_lat * Real.sin t_lat - Real.sin s_lat * Real.cos t_lat * Real.cos d_lon)
      * 180 / Real.pi
  let course_bearing := rustRem (course_bearing0 + 360) 360
  let wind := data.windAt time
  let wind_direction := wind.wind_angle
  let wind_speed := wind.wind_speed
  let relative_bearing0 := |wind_direction - course_bearing|
  let relative_bearing :=
    if relative_bearing0 > 180 then 360 - relative_bearing0 else relative_bearing0
  { estimated_speed := data.polarSpeed relative_bearing wind_speed
    course_bearing := course_bearing
    wind_direction := wind_direction
    relative_bearing := relative_bearing
    wind_speed := wind_speed }

/-- One traversed edge instance (`Step`). -/
structure Step where
  from_ : ℕ
  to_ : ℕ
  distance : ℝ
  speed : ℝ
  start_time : ℝ
  end_time : ℝ

/-- One complete enumerated route (`Path`). -/
structure Path where
  steps : List Step
  total_distance : ℝ
  end_time : ℝ

/-- `usize::MAX`, the default cap substituted for an absent `maxPaths`. -/
def usizeMax : ℕ := 2 ^ 64 - 1

/-- Internal state of the fixed-depth exploration
(`PathExplorationState`). -/
structure PathExplorationState where
  current_point : ℕ
  current_time : ℝ
  remaining_steps : ℕ
  current_steps : List Step
  edges_used : List ℕ
  total_distance : ℝ

/-- The per-edge admissibility test of `explore_paths_recursive`
(lines 167-184): skip the edge when its entity's `u8` counter has reached
the entity's maximum truncated to `u8`. -/
def skipEdgeF (d : RegattaData) (st : PathExplorationState) (e : GEdge) : Bool :=
  decide (entityMax d (entityIdx d e) % 256 ≤ st.edges_used.getD (entityIdx d e) 0)

/-- State advance of `explore_paths_recursive` (lines 186-226): estimate the
leg at the CURRENT elapsed time, derive the travel time (nominal 1 knot if
the estimated speed is 0), append the step, bump the entity's `u8` counter,
and move to the edge target with one less remaining step (`r`). -/
noncomputable def advanceF (d : RegattaData) (st : PathExplorationState) (r : ℕ)
    (e : GEdge) : PathExplorationState :=
  let performance := estimate_leg_performance d st.current_point e.dst st.current_time
  let speed := performance.estimated_speed
  let distance := e.distance
  let travel_time := if speed > 0 then distance / speed else distance / 1
  let end_time := st.current_time + travel_time
  let step : Step :=
    ⟨st.current_point, e.dst, distance, speed, st.current_time, end_time⟩
  { current_point := e.dst
    current_time := end_time
    remaining_steps := r
    current_steps := st.current_steps ++ [step]
    edges_used :=
      st.edges_used.set (entityIdx d e) ((st.edges_used.getD (entityIdx d e) 0 + 1) % 256)
    total_distance := st.total_distance + distance }

mutual

/-- `explore_paths_recursive` (src/optimize.rs lines 137-233), with the
output vector threaded as `acc`.  At zero remaining steps the current path
is pushed; the subsequent `max_paths` comparison of the source returns in
both branches alike and is reproduced as such.  The neighbour loop has no
early exit in this mode. -/
noncomputable def epRec (d : RegattaData) (maxP : ℕ) (st : PathExplorationState)
    (acc : List Path) : List Path :=
  if st.remaining_steps = 0 then
    let r := acc ++ [⟨st.current_steps, st.total_distance, st.current_time⟩]
    if maxP ≤ r.length then r else r
  else epLoop d maxP (st.remaining_steps - 1) st (outEdges d st.current_point) acc
termination_by (st.remaining_steps, 0)
decreasing_by
  all_goals simp_wf
  all_goals try simp [advanceF]
  all_goals first
    | (apply Prod.Lex.left; omega)
    | (apply Prod.Lex.right; omega)

/-- The neighbour loop of `explore_paths_recursive` (lines 162-230):
process the outgoing edges in order, skipping inadmissible ones and
recursing through the rest; the accumulated output is never truncated and
never stops the loop. -/
noncomputable def epLoop (d : RegattaData) (maxP : ℕ) (r : ℕ)
    (st : PathExplorationState) (es : List GEdge) (acc : List Path) : List Path :=
  match es with
  | [] => acc
  | e :: rest =>
    if skipEdgeF d st e then
      epLoop d maxP r st rest acc
    else
      epLoop d maxP r st rest (epRec d maxP (advanceF d st r e) acc)
termination_by (r, es.length + 1)
decreasing_by
  all_goals simp_wf
  all_goals try simp [advanceF]
  all_goals first
    | (apply Prod.Lex.left; omega)
    | (apply Prod.Lex.right; omega)

end

/-- `explore_paths` (src/optimize.rs lines 104-134): bound-check the start
index, seed the zeroed usage vector, and run the recursion with
`max_paths.unwrap_or(usize::MAX)`. -/
noncomputable def explore_paths (data : RegattaData) (start_point : ℕ)
    (start_time : ℝ) (num_steps : ℕ) (max_paths : Option ℕ) :
    Except String (List Path) :=
  if data.boeien.length ≤ start_point then
    .error ("Invalid start point index: " ++ toString start_point)
  else
    .ok (epRec data (max_paths.getD usizeMax)
      { current_point := start_point
        current_time := start_time
        remaining_steps := num_steps
        current_steps := []
        edges_used := List.replicate (data.starts.length + data.rakken.length) 0
        total_distance := 0 } [])

/-- Internal state of the target-seeking exploration
(`TargetPathExplorationState`). -/
structure TargetPathExplorationState where
  current_point : ℕ
  target_point : ℕ
  current_time : ℝ
  remaining_steps : ℕ
  current_steps : List Step
  edges_used : List ℕ
  rak_usage : List ℕ
  total_distance : ℝ

/-- The per-edge admissibility test of `explore_target_paths_recursive`
(lines 324-349): the entity-counter test of the fixed-depth mode plus the
hard cap of 2 on each leg's dedicated counter. -/
def skipEdgeT (d : RegattaData) (st : TargetPathExplorationState) (e : GEdge) : Bool :=
  decide (entityMax d (entityIdx d e) % 256 ≤ st.edges_used.getD (entityIdx d e) 0) ||
    (!e.is_start && decide (2 ≤ st.rak_usage.getD e.index 0))

/-- State advance of `explore_target_paths_recursive` (lines 351-400): as in
the fixed-depth mode, additionally bumping the leg's dedicated `u8` counter
when the edge is a leg. -/
noncomputable def advanceT (d : RegattaData) (st : TargetPathExplorationState)
    (r : ℕ) (e : GEdge) : TargetPathExplorationState :=
  let performance := estimate_leg_performance d st.current_point e.dst st.current_time
  let speed := performance.estimated_speed
  let distance := e.distance
  let travel_time := if speed > 0 then distance / speed else distance / 1
  let end_time := st.current_time + travel_time
  let step : Step :=
    ⟨st.current_point, e.dst, distance, speed, st.current_time, end_time⟩
  { current_point := e.dst
    target_point := st.target_point
    current_time := end_time
    remaining_steps := r
    current_steps := st.current_steps ++ [step]
    edges_used :=
      st.edges_used.set (entityIdx d e) ((st.edges_used.getD (entityIdx d e) 0 + 1) % 256)
    rak_usage :=
      if e.is_start then st.rak_usage
      else st.rak_usage.set e.index ((st.rak_usage.getD e.index 0 + 1) % 256)
    total_distance := st.total_distance + distance }

mutual

/-- `explore_target_paths_recursive` (src/optimize.rs lines 289-412): on
reaching the target the current path is pushed regardless of remaining
budget (the subsequent `max_paths` comparison returns in both branches
alike and is reproduced as such); an exhausted budget saves nothing. -/
noncomputable def etpRec (d : RegattaData) (maxP : ℕ)
    (st : TargetPathExplorationState) (acc : List Path) : List Path :=
  if st.current_point = st.target_point then
    let r := acc ++ [⟨st.current_steps, st.total_distance, st.current_time⟩]
    if maxP ≤ r.length then r else r
  else if st.remaining_steps = 0 then acc
  else etpLoop d maxP (st.remaining_steps - 1) st (outEdges d st.current_point) acc
termination_by (st.remaining_steps, 0)
decreasing_by
  all_goals simp_wf
  all_goals try simp [advanceT]
  all_goals first
    | (apply Prod.Lex.left; omega)
    | (apply Prod.Lex.right; omega)

/-- The neighbour loop of `explore_target_paths_recursive` (lines 319-409):
unlike the fixed-depth mode, after each recursive call the loop exits as
soon as the accumulated output has reached `max_paths`. -/
noncomputable def etpLoop (d : RegattaData) (maxP : ℕ) (r : ℕ)
    (st : TargetPathExplorationState) (es : List GEdge)
    (acc : List Path) : List Path :=
  match es with
  | [] => acc
  | e :: rest =>
    if skipEdgeT d st e then
      etpLoop d maxP r st rest acc
    else
      let acc2 := etpRec d maxP (advanceT d st r e) acc
      if maxP ≤ acc2.length then acc2
      else etpLoop d maxP r st rest acc2
termination_by (r, es.length + 1)
decreasing_by
  all_goals simp_wf
  all_goals try simp [advanceT]
  all_goals first
    | (apply Prod.Lex.left; omega)
    | (apply Prod.Lex.right; omega)

end

/-- `explore_target_paths` (src/optimize.rs lines 248-286): bound-check both
indices, seed the zeroed usage vectors (the combined one and the dedicated
per-leg one), and run the recursion with
`max_paths.unwrap_or(usize::MAX)`. -/
noncomputable def explore_target_paths (data : RegattaData) (start_point : ℕ)
    (target_point : ℕ) (start_time : ℝ) (max_steps : ℕ)
    (max_paths : Option ℕ) : Except String (List Path) :=
  if data.boeien.length ≤ start_point then
    .error ("Invalid start point index: " ++ toString start_point)
  else if data.boeien.length ≤ target_point then
    .error ("Invalid target point index: " ++ toString target_point)
  else
    .ok (etpRec data (max_paths.getD usizeMax)
      { current_point := start_point
        target_point := target_point
        current_time := start_time
        remaining_steps := max_steps
        current_steps := []
        edges_used := List.replicate (data.starts.length + data.rakken.length) 0
        rak_usage := List.replicate data.rakken.length 0
        total_distance := 0 } [])

/-- A step list forms a contiguous chain from node `p` at time `t` to node
`q` at time `u`: each step starts where and when the previous one ended. -/
def ChainSteps : ℕ → ℝ → List Step → ℕ → ℝ → Prop
  | p, t, [], q, u => q = p ∧ u = t
  | p, t, s :: ss, q, u =>
    s.from_ = p ∧ s.start_time = t ∧ ChainSteps s.to_ s.end_time ss q u

/-- A step list is realized by a graph-edge list: pointwise, the step's
endpoints and distance are those of the edge. -/
def StepsMatch : List GEdge → List Step → Prop
  | [], [] => True
  | e :: es, s :: ss =>
    s.from_ = e.src ∧ s.to_ = e.dst ∧ s.distance = e.distance ∧ StepsMatch es ss
  | _, _ => False

/-- How many edges of a walk consume combined usage slot `i`. -/
def entityCount (d : RegattaData) (es : List GEdge) (i : ℕ) : ℕ :=
  (es.filter (fun e => decide (entityIdx d e = i))).length

/-- How many edges of a walk traverse leg entity `j` (in either
direction). -/
def rakCount (es : List GEdge) (j : ℕ) : ℕ :=
  (es.filter (fun e => !e.is_start && decide (e.index = j))).length

/-- The step's duration is its distance over its speed, with the nominal
1-knot fallback at speed 0 (src/optimize.rs lines 192-197 and 357-362). -/
def StepTimeEq (s : Step) : Prop :=
  s.end_time - s.start_time = if s.speed > 0 then s.distance / s.speed else s.distance / 1

/-- A walk of graph edges from node `c` to the target that the
target-seeking explorer can take with the given usage counters: each edge
is admissible for the counters accumulated so far (entity counter below the
`u8`-truncated maximum, leg counter below 2), counters being bumped exactly
as the explorer bumps them. -/
def FeasWalk (d : RegattaData) : ℕ → List ℕ → List ℕ → List GEdge → ℕ → Prop
  | c, _, _, [], tgt => c = tgt
  | c, used, rak, e :: es, tgt =>
    e ∈ graphEdgeList d ∧ e.src = c ∧
    used.getD (entityIdx d e) 0 < entityMax d (entityIdx d e) % 256 ∧
    (e.is_start = false → rak.getD e.index 0 < 2) ∧
    FeasWalk d e.dst
      (used.set (entityIdx d e) ((used.getD (entityIdx d e) 0 + 1) % 256))
      (if e.is_start then rak else rak.set e.index ((rak.getD e.index 0 + 1) % 256))
      es tgt

/-- Plain graph connectivity: a walk of at most `n` edges from `c` to
`tgt` in the route graph, ignoring all usage limits. -/
def WalkLe (d : RegattaData) : ℕ → ℕ → ℕ → Prop
  | c, tgt, 0 => c = tgt
  | c, tgt, n + 1 => c = tgt ∨ ∃ e ∈ graphEdgeList d, e.src = c ∧ WalkLe d e.dst tgt n

/-- The invariant of the target-seeking recursion: the state was reached
from `start` at time `t0` along some admissible edge walk, whose usage
counts the two counter vectors record exactly. -/
def TStateOK (d : RegattaData) (start : ℕ) (t0 : ℝ)
    (st : TargetPathExplorationState) : Prop :=
  ∃ es : List GEdge,
    (∀ e ∈ es, e ∈ graphEdgeList d) ∧
    StepsMatch es st.current_steps ∧
    ChainSteps start t0 st.current_steps st.current_point st.current_time ∧
    st.total_distance = (st.current_steps.map Step.distance).sum ∧
    (∀ s ∈ st.current_steps, StepTimeEq s) ∧
    st.edges_used.length = d.starts.length + d.rakken.length ∧
    st.rak_usage.length = d.rakken.length ∧
    (∀ i, st.edges_used.getD i 0 = entityCount d es i) ∧
    (∀ j, st.rak_usage.getD j 0 = rakCount es j) ∧
    (∀ i, entityCount d es i ≤ entityMax d i % 256) ∧
    (∀ j, rakCount es j ≤ 2)

/-- What the target-seeking explorer guarantees for each output path: a
contiguous chain from `start` to `tgt` with correct totals and step
durations, realized by an in-graph walk whose per-entity usage stays below
the `u8`-truncated maxima and whose per-leg usage stays at most 2. -/
def GoodT (d : RegattaData) (start tgt : ℕ) (t0 : ℝ) (p : Path) : Prop :=
  ChainSteps start t0 p.steps tgt p.end_time ∧
  p.total_distance = (p.steps.map Step.distance).sum ∧
  (∀ s ∈ p.steps, StepTimeEq s) ∧
  ∃ es : List GEdge,
    (∀ e ∈ es, e ∈ graphEdgeList d) ∧
    StepsMatch es p.steps ∧
    (∀ i, entityCount d es i ≤ entityMax d i % 256) ∧
    (∀ j, rakCount es j ≤ 2)

/-- The invariant of the fixed-depth recursion: as `TStateOK` but with no
per-leg counter. -/
def FStateOK (d : RegattaData) (start : ℕ) (t0 : ℝ)
    (st : PathExplorationState) : Prop :=
  ∃ es : List GEdge,
    (∀ e ∈ es, e ∈ graphEdgeList d) ∧
    StepsMatch es st.current_steps ∧
    ChainSteps start t0 st.current_steps st.current_point st.current_time ∧
    st.total_distance = (st.current_steps.map Step.distance).sum ∧
    (∀ s ∈ st.current_steps, StepTimeEq s) ∧
    st.edges_used.length = d.starts.length + d.rakken.length ∧
    (∀ i, st.edges_used.getD i 0 = entityCount d es i) ∧
    (∀ i, entityCount d es i ≤ entityMax d i % 256)

/-- What the fixed-depth explorer guarantees for each output path: a
contiguous chain from `start` to some endpoint with correct totals and step
durations, realized by an in-graph walk whose per-entity usage stays below
the `u8`-truncated maxima. -/
def GoodF (d : RegattaData) (start : ℕ) (t0 : ℝ) (p : Path) : Prop :=
  (∃ q, ChainSteps start t0 p.steps q p.end_time) ∧
  p.total_distance = (p.steps.map Step.distance).sum ∧
  (∀ s ∈ p.steps, StepTimeEq s) ∧
  ∃ es : List GEdge,
    (∀ e ∈ es, e ∈ graphEdgeList d) ∧
    StepsMatch es p.steps ∧
    (∀ i, entityCount d es i ≤ entityMax d i % 256)

/-- The wind schedule of the §8 concrete scenario: constant 10 kt from
90° at every queried time. -/
def scWind : ℝ → WindCondition := fun _ => ⟨10, 90⟩

/-- The polar table of the §8 concrete scenario: 5 kt for every queried
angle/speed combination. -/
def scPolar : ℝ → ℝ → ℝ := fun _ _ => 5

/-- Buoy A at latitude 0°, longitude 0°. -/
def bA : Boei := ⟨"A", none, some 0, some 0⟩

/-- Buoy B at latitude 0°, longitude 1°. -/
def bB : Boei := ⟨"B", none, some 0, some 1⟩

/-- Buoy C at latitude 1°, longitude 1°. -/
def bC : Boei := ⟨"C", none, some 1, some 1⟩

/-- The §8 concrete scenario: buoys A, B, C, leg A-B (1 nm, max 2), leg
B-C (1 nm, max 2), constant wind, constant 5 kt polar. -/
def scABC : RegattaData :=
  ⟨[bA, bB, bC], [], [⟨"A", "B", 1, 2⟩, ⟨"B", "C", 1, 2⟩], scWind, scPolar⟩

/-- A two-buoy dataset with the single leg A-B (1 nm, max 2). -/
def scAB : RegattaData :=
  ⟨[bA, bB], [], [⟨"A", "B", 1, 2⟩], scWind, scPolar⟩

/-- A two-buoy dataset whose single leg A-B has `max_number = 0`: the leg
is present in the graph but may never be traversed. -/
def scZero : RegattaData :=
  ⟨[bA, bB], [], [⟨"A", "B", 1, 0⟩], scWind, scPolar⟩

/-- A two-buoy dataset with two parallel legs A-B: the first with
`max_number = 256` (truncating to 0 as a `u8`), the second with
`max_number = 5`. -/
def sc256 : RegattaData :=
  ⟨[bA, bB], [], [⟨"A", "B", 1, 256⟩, ⟨"A", "B", 1, 5⟩], scWind, scPolar⟩

/-- The step A→B of the concrete scenarios: 1 nm at 5 kt from time 0. -/
noncomputable def stepAB : Step := ⟨0, 1, 1, 5, 0, 1 / 5⟩

/-- The step B→C of the §8 scenario: 1 nm at 5 kt from time 1/5. -/
noncomputable def stepBC : Step := ⟨1, 2, 1, 5, 1 / 5, 2 / 5⟩

/-- The step B→A of the §8 scenario: 1 nm at 5 kt from time 1/5. -/
noncomputable def stepBA : Step := ⟨1, 0, 1, 5, 1 / 5, 2 / 5⟩

/-- The path A→B→C of the §8 scenario. -/
noncomputable def pABC : Path := ⟨[stepAB, stepBC], 2, 2 / 5⟩

/-- The path A→B→A of the §8 scenario (the leg A-B sailed out and back,
allowed by its maximum of 2). -/
noncomputable def pABA : Path := ⟨[stepAB, stepBA], 2, 2 / 5⟩

/-- The one-step path A→B. -/
noncomputable def pAB : Path := ⟨[stepAB], 1, 1 / 5⟩

/-! ### Unfolding lemmas for the recursions -/

theorem epRec_eq (d : RegattaData) (maxP : ℕ) (st : PathExplorationState)
    (acc : List Path) :
    epRec d maxP st acc =
      if st.remaining_steps = 0 then
        acc ++ [⟨st.current_steps, st.total_distance, st.current_time⟩]
      else epLoop d maxP (st.remaining_steps - 1) st (outEdges d st.current_point) acc := by
  rw [epRec]
  split <;> simp

theorem epLoop_nil (d : RegattaData) (maxP r : ℕ) (st : PathExplorationState)
    (acc : List Path) : epLoop d maxP r st [] acc = acc := by
  rw [epLoop]

theorem epLoop_cons (d : RegattaData) (maxP r : ℕ) (st : PathExplorationState)
    (e : GEdge) (rest : List GEdge) (acc : List Path) :
    epLoop d maxP r st (e :: rest) acc =
      if skipEdgeF d st e then epLoop d maxP r st rest acc
      else epLoop d maxP r st rest (epRec d maxP (advanceF d st r e) acc) := by
  rw [epLoop]

theorem etpRec_eq (d : RegattaData) (maxP : ℕ) (st : TargetPathExplorationState)
    (acc : List Path) :
    etpRec d maxP st acc =
      if st.current_point = st.target_point then
        acc ++ [⟨st.current_steps, st.total_distance, st.current_time⟩]
      else if st.remaining_steps = 0 then acc
      else etpLoop d maxP (st.remaining_steps - 1) st (outEdges d st.current_point) acc := by
  rw [etpRec]
  split <;> simp

theorem etpLoop_nil (d : RegattaData) (maxP r : ℕ) (st : TargetPathExplorationState)
    (acc : List Path) : etpLoop d maxP r st [] acc = acc := by
  rw [etpLoop]

theorem etpLoop_cons (d : RegattaData) (maxP r : ℕ) (st : TargetPathExplorationState)
    (e : GEdge) (rest : List GEdge) (acc : List Path) :
    etpLoop d maxP r st (e :: rest) acc =
      if skipEdgeT d st e then etpLoop d maxP r st rest acc
      else if maxP ≤ (etpRec d maxP (advanceT d st r e) acc).length then
        etpRec d maxP (advanceT d st r e) acc
      else etpLoop d maxP r st rest (etpRec d maxP (advanceT d st r e) acc) := by
  rw [etpLoop]

/-! ### Small list lemmas -/

theorem getD_set_self (l : List ℕ) (i v : ℕ) (h : i < l.length) :
    (l.set i v).getD i 0 = v := by
  induction l generalizing i with
  | nil => simp at h
  | cons a t ih =>
    cases i with
    | zero => simp [List.set]
    | succ n => simpa [List.set] using ih n (by simpa using h)

theorem getD_set_ne (l : List ℕ) (i j v : ℕ) (h : i ≠ j) :
    (l.set i v).getD j 0 = l.getD j 0 := by
  induction l generalizing i j with
  | nil => simp [List.set]
  | cons a t ih =>
    cases i with
    | zero =>
      cases j with
      | zero => exact absurd rfl h
      | succ m => simp [List.set]
    | succ n =>
      cases j with
      | zero => simp [List.set]
      | succ m => simpa [List.set] using ih n m (by omega)

theorem getD_replicate_zero (n i : ℕ) :
    (List.replicate n (0 : ℕ)).getD i 0 = 0 := by
  induction n generalizing i with
  | zero => simp
  | succ m ih =>
    cases i with
    | zero => simp [List.replicate]
    | succ k => simpa [List.replicate] using ih k

/-! ### Chain lemmas -/

theorem chainSteps_append (p : ℕ) (t : ℝ) (ss : List Step) (q : ℕ) (u : ℝ)
    (s : Step) (hc : ChainSteps p t ss q u) (hf : s.from_ = q)
    (hs : s.start_time = u) :
    ChainSteps p t (ss ++ [s]) s.to_ s.end_time := by
  induction ss generalizing p t with
  | nil =>
    obtain ⟨hq, hu⟩ := hc
    exact ⟨by rw [hf, hq], by rw [hs, hu], rfl, rfl⟩
  | cons a tl ih =>
    obtain ⟨h1, h2, h3⟩ := hc
    exact ⟨h1, h2, ih a.to_ a.end_time h3⟩

theorem chainSteps_getLast (p : ℕ) (t : ℝ) (ss : List Step) (q : ℕ) (u : ℝ)
    (hc : ChainSteps p t ss q u) (h : ss ≠ []) :
    (ss.getLast h).to_ = q ∧ (ss.getLast h).end_time = u := by
  induction ss generalizing p t with
  | nil => exact absurd rfl h
  | cons a tl ih =>
    obtain ⟨_, _, h3⟩ := hc
    cases tl with
    | nil =>
      obtain ⟨hq, hu⟩ := h3
      simp [List.getLast, hq, hu]
    | cons b tl2 =>
      have h4 := ih a.to_ a.end_time h3 (by simp)
      simpa [List.getLast_cons] using h4

theorem chainSteps_head (p : ℕ) (t : ℝ) (ss : List Step) (q : ℕ) (u : ℝ)
    (hc : ChainSteps p t ss q u) (h : ss ≠ []) :
    (ss.head h).from_ = p ∧ (ss.head h).start_time = t := by
  cases ss with
  | nil => exact absurd rfl h
  | cons a tl => exact ⟨hc.1, hc.2.1⟩

theorem chainSteps_adjacent (p : ℕ) (t : ℝ) (ss : List Step) (q : ℕ) (u : ℝ)
    (hc : ChainSteps p t ss q u) (i : ℕ) (h : i + 1 < ss.length) :
    (ss.get ⟨i, Nat.lt_of_succ_lt h⟩).to_ = (ss.get ⟨i + 1, h⟩).from_ ∧
      (ss.get ⟨i, Nat.lt_of_succ_lt h⟩).end_time = (ss.get ⟨i + 1, h⟩).start_time := by
  induction ss generalizing p t i with
  | nil => simp at h
  | cons a tl ih =>
    obtain ⟨_, _, h3⟩ := hc
    cases i with
    | zero =>
      cases tl with
      | nil => simp at h
      | cons b tl2 =>
        obtain ⟨hb1, hb2, _⟩ := h3
        exact ⟨by simp [hb1], by simp [hb2]⟩
    | succ n =>
      simpa using ih a.to_ a.end_time h3 n (by simpa using h)

theorem chainSteps_empty_end (p : ℕ) (t : ℝ) (q : ℕ) (u : ℝ)
    (hc : ChainSteps p t [] q u) : q = p ∧ u = t := hc

/-! ### Graph membership lemmas -/

theorem mem_outEdges (d : RegattaData) (v : ℕ) (e : GEdge) :
    e ∈ outEdges d v ↔ e ∈ graphEdgeList d ∧ e.src = v := by
  simp [outEdges, List.mem_filter]

theorem entityIdx_lt (d : RegattaData) (e : GEdge) (he : e ∈ graphEdgeList d) :
    entityIdx d e < d.starts.length + d.rakken.length ∧
      (e.is_start = true → e.index < d.starts.length ∧
        entityIdx d e = e.index) ∧
      (e.is_start = false → e.index < d.rakken.length ∧
        entityIdx d e = d.starts.length + e.index) := by
  rcases List.mem_append.mp he with hs | hr
  · simp only [startGEdges, List.mem_filterMap, List.mem_range] at hs
    obtain ⟨i, hi, hmk⟩ := hs
    split at hmk
    · injection hmk with h
      subst h
      exact ⟨by simp [entityIdx]; omega, fun _ => ⟨hi, by simp [entityIdx]⟩,
        fun hfalse => by simp at hfalse⟩
    · exact absurd hmk (by simp)
  · simp only [rakGEdges, List.mem_flatMap, List.mem_range] at hr
    obtain ⟨j, hj, hmk⟩ := hr
    split at hmk
    · simp only [List.mem_cons, List.not_mem_nil, or_false] at hmk
      rcases hmk with rfl | rfl <;>
        exact ⟨by simp [entityIdx]; omega,
          fun htrue => by simp at htrue,
          fun _ => ⟨hj, by simp [entityIdx]⟩⟩
    · simp at hmk

/-! ### Admissibility and counting lemmas -/

theorem skipEdgeT_false (d : RegattaData) (st : TargetPathExplorationState)
    (e : GEdge) :
    skipEdgeT d st e = false ↔
      st.edges_used.getD (entityIdx d e) 0 < entityMax d (entityIdx d e) % 256 ∧
        (e.is_start = false → st.rak_usage.getD e.index 0 < 2) := by
  cases h : e.is_start <;> simp [skipEdgeT, h] <;> omega

theorem skipEdgeF_false (d : RegattaData) (st : PathExplorationState)
    (e : GEdge) :
    skipEdgeF d st e = false ↔
      st.edges_used.getD (entityIdx d e) 0 < entityMax d (entityIdx d e) % 256 := by
  simp [skipEdgeF]

theorem entityCount_append (d : RegattaData) (es : List GEdge) (e : GEdge)
    (i : ℕ) :
    entityCount d (es ++ [e]) i =
      entityCount d es i + if entityIdx d e = i then 1 else 0 := by
  by_cases h : entityIdx d e = i <;> simp [entityCount, List.filter_append, h]

theorem rakCount_append (es : List GEdge) (e : GEdge) (j : ℕ) :
    rakCount (es ++ [e]) j =
      rakCount es j + if e.is_start = false ∧ e.index = j then 1 else 0 := by
  cases hb : e.is_start <;> by_cases h : e.index = j <;>
    simp [rakCount, List.filter_append, hb, h]

theorem entityCount_nil (d : RegattaData) (i : ℕ) : entityCount d [] i = 0 := rfl

theorem rakCount_nil (j : ℕ) : rakCount [] j = 0 := rfl

theorem stepsMatch_append (es : List GEdge) (ss : List Step) (e : GEdge)
    (s : Step) (h : StepsMatch es ss) (h1 : s.from_ = e.src) (h2 : s.to_ = e.dst)
    (h3 : s.distance = e.distance) :
    StepsMatch (es ++ [e]) (ss ++ [s]) := by
  induction es generalizing ss with
  | nil =>
    cases ss with
    | nil => exact ⟨h1, h2, h3, trivial⟩
    | cons b tl => exact absurd h (by simp [StepsMatch])
  | cons f fs ih =>
    cases ss with
    | nil => exact absurd h (by simp [StepsMatch])
    | cons b tl =>
      obtain ⟨m1, m2, m3, m4⟩ := h
      exact ⟨m1, m2, m3, ih tl m4⟩

/-! ### Field lemmas for the state advances -/

theorem advanceT_fields (d : RegattaData) (st : TargetPathExplorationState)
    (r : ℕ) (e : GEdge) :
    (advanceT d st r e).current_point = e.dst ∧
      (advanceT d st r e).target_point = st.target_point ∧
      (advanceT d st r e).remaining_steps = r := by
  refine ⟨?_, ?_, ?_⟩ <;> simp [advanceT]

theorem advanceF_fields (d : RegattaData) (st : PathExplorationState)
    (r : ℕ) (e : GEdge) :
    (advanceF d st r e).current_point = e.dst ∧
      (advanceF d st r e).remaining_steps = r := by
  refine ⟨?_, ?_⟩ <;> simp [advanceF]

/-! ### Invariant preservation -/

theorem TStateOK_advance (d : RegattaData) (start : ℕ) (t0 : ℝ)
    (st : TargetPathExplorationState) (r : ℕ) (e : GEdge)
    (hok : TStateOK d start t0 st) (he : e ∈ graphEdgeList d)
    (hsrc : e.src = st.current_point)
    (hskip : skipEdgeT d st e = false) :
    TStateOK d start t0 (advanceT d st r e) := by
  obtain ⟨es, hg, hm, hc, htd, hte, hlu, hlr, hcu, hcr, hbu, hbr⟩ := hok
  obtain ⟨hlt, hrk⟩ := (skipEdgeT_false d st e).mp hskip
  obtain ⟨hkidx, hkstart, hkrak⟩ := entityIdx_lt d e he
  refine ⟨es ++ [e], ?_, ?_, ?_, ?_, ?_, ?_, ?_, ?_, ?_, ?_, ?_⟩
  · intro e' he'
    rcases List.mem_append.mp he' with h | h
    · exact hg e' h
    · simpa using (List.mem_singleton.mp h) ▸ he
  · simp only [advanceT]
    exact stepsMatch_append es st.current_steps e _ hm hsrc.symm rfl rfl
  · simp only [advanceT]
    exact chainSteps_append start t0 st.current_steps st.current_point
      st.current_time _ hc rfl rfl
  · simp only [advanceT, List.map_append, List.sum_append, htd]
    simp
  · simp only [advanceT]
    intro s hs
    rcases List.mem_append.mp hs with h | h
    · exact hte s h
    · rw [List.mem_singleton.mp h]
      simp only [StepTimeEq]
      rw [add_sub_cancel_left]
  · simp only [advanceT, List.length_set]
    exact hlu
  · simp only [advanceT]
    cases e.is_start <;> simp [List.length_set, hlr]
  · intro i
    simp only [advanceT]
    rw [entityCount_append]
    by_cases h : entityIdx d e = i
    · subst h
      rw [getD_set_self _ _ _ (by rw [hlu]; exact hkidx), if_pos rfl, hcu]
      have hmax : entityMax d (entityIdx d e) % 256 < 256 := Nat.mod_lt _ (by omega)
      rw [hcu] at hlt
      omega
    · rw [getD_set_ne _ _ _ _ h, if_neg h, hcu, Nat.add_zero]
  · intro j
    simp only [advanceT]
    rw [rakCount_append]
    cases hb : e.is_start
    · rw [if_neg (show ¬((false : Bool) = true) by simp)]
      by_cases h : e.index = j
      · subst h
        have hJlt : e.index < st.rak_usage.length := by
          rw [hlr]; exact (hkrak hb).1
        rw [getD_set_self _ _ _ hJlt, if_pos ⟨rfl, rfl⟩, hcr]
        have h2 := hrk hb
        rw [hcr] at h2
        omega
      · rw [getD_set_ne _ _ _ _ h, if_neg (by simp [h]), hcr, Nat.add_zero]
    · rw [if_pos rfl, if_neg (by simp), Nat.add_zero]
      exact hcr j
  · intro i
    rw [entityCount_append]
    by_cases h : entityIdx d e = i
    · subst h
      rw [if_pos rfl]
      rw [hcu] at hlt
      omega
    · rw [if_neg h, Nat.add_zero]
      exact hbu i
  · intro j
    rw [rakCount_append]
    by_cases h : e.is_start = false ∧ e.index = j
    · obtain ⟨hb, hj⟩ := h
      subst hj
      rw [if_pos ⟨hb, rfl⟩]
      have h2 := hrk hb
      rw [hcr] at h2
      omega
    · rw [if_neg h, Nat.add_zero]
      exact hbr j

theorem TStateOK_push (d : RegattaData) (start : ℕ) (t0 : ℝ)
    (st : TargetPathExplorationState) (hok : TStateOK d start t0 st)
    (htgt : st.current_point = st.target_point) :
    GoodT d start st.target_point t0
      ⟨st.current_steps, st.total_distance, st.current_time⟩ := by
  obtain ⟨es, hg, hm, hc, htd, hte, _, _, _, _, hbu, hbr⟩ := hok
  exact ⟨htgt ▸ hc, htd, hte, es, hg, hm, hbu, hbr⟩

theorem FStateOK_advance (d : RegattaData) (start : ℕ) (t0 : ℝ)
    (st : PathExplorationState) (r : ℕ) (e : GEdge)
    (hok : FStateOK d start t0 st) (he : e ∈ graphEdgeList d)
    (hsrc : e.src = st.current_point)
    (hskip : skipEdgeF d st e = false) :
    FStateOK d start t0 (advanceF d st r e) := by
  obtain ⟨es, hg, hm, hc, htd, hte, hlu, hcu, hbu⟩ := hok
  have hlt := (skipEdgeF_false d st e).mp hskip
  obtain ⟨hkidx, _, _⟩ := entityIdx_lt d e he
  refine ⟨es ++ [e], ?_, ?_, ?_, ?_, ?_, ?_, ?_, ?_⟩
  · intro e' he'
    rcases List.mem_append.mp he' with h | h
    · exact hg e' h
    · simpa using (List.mem_singleton.mp h) ▸ he
  · simp only [advanceF]
    exact stepsMatch_append es st.current_steps e _ hm hsrc.symm rfl rfl
  · simp only [advanceF]
    exact chainSteps_append start t0 st.current_steps st.current_point
      st.current_time _ hc rfl rfl
  · simp only [advanceF, List.map_append, List.sum_append, htd]
    simp
  · simp only [advanceF]
    intro s hs
    rcases List.mem_append.mp hs with h | h
    · exact hte s h
    · rw [List.mem_singleton.mp h]
      simp only [StepTimeEq]
      rw [add_sub_cancel_left]
  · simp only [advanceF, List.length_set]
    exact hlu
  · intro i
    simp only [advanceF]
    rw [entityCount_append]
    by_cases h : entityIdx d e = i
    · subst h
      rw [getD_set_self _ _ _ (by rw [hlu]; exact hkidx), if_pos rfl, hcu]
      have hmax : entityMax d (entityIdx d e) % 256 < 256 := Nat.mod_lt _ (by omega)
      rw [hcu] at hlt
      omega
    · rw [getD_set_ne _ _ _ _ h, if_neg h, hcu, Nat.add_zero]
  · intro i
    rw [entityCount_append]
    by_cases h : entityIdx d e = i
    · subst h
      rw [if_pos rfl]
      rw [hcu] at hlt
      omega
    · rw [if_neg h, Nat.add_zero]
      exact hbu i

theorem FStateOK_push (d : RegattaData) (start : ℕ) (t0 : ℝ)
    (st : PathExplorationState) (hok : FStateOK d start t0 st) :
    GoodF d start t0 ⟨st.current_steps, st.total_distance, st.current_time⟩ := by
  obtain ⟨es, hg, hm, hc, htd, hte, _, _, hbu⟩ := hok
  exact ⟨⟨st.current_point, hc⟩, htd, hte, es, hg, hm, hbu⟩

theorem TStateOK_init (d : RegattaData) (start tgt : ℕ) (t0 : ℝ)
    (maxSteps : ℕ) :
    TStateOK d start t0
      { current_point := start
        target_point := tgt
        current_time := t0
        remaining_steps := maxSteps
        current_steps := []
        edges_used := List.replicate (d.starts.length + d.rakken.length) 0
        rak_usage := List.replicate d.rakken.length 0
        total_distance := 0 } := by
  refine ⟨[], by simp, trivial, ⟨rfl, rfl⟩, by simp, by simp, by simp, by simp,
    ?_, ?_, ?_, ?_⟩
  · intro i; simpa [entityCount_nil] using getD_replicate_zero _ i
  · intro j; simpa [rakCount_nil] using getD_replicate_zero _ j
  · intro i; simp [entityCount_nil]
  · intro j; simp [rakCount_nil]

theorem FStateOK_init (d : RegattaData) (start : ℕ) (t0 : ℝ) (numSteps : ℕ) :
    FStateOK d start t0
      { current_point := start
        current_time := t0
        remaining_steps := numSteps
        current_steps := []
        edges_used := List.replicate (d.starts.length + d.rakken.length) 0
        total_distance := 0 } := by
  refine ⟨[], by simp, trivial, ⟨rfl, rfl⟩, by simp, by simp, by simp, ?_, ?_⟩
  · intro i; simpa [entityCount_nil] using getD_replicate_zero _ i
  · intro i; simp [entityCount_nil]

theorem advanceT_used (d : RegattaData) (st : TargetPathExplorationState)
    (r : ℕ) (e : GEdge) :
    (advanceT d st r e).edges_used =
      st.edges_used.set (entityIdx d e)
        ((st.edges_used.getD (entityIdx d e) 0 + 1) % 256) := rfl

theorem advanceT_rak (d : RegattaData) (st : TargetPathExplorationState)
    (r : ℕ) (e : GEdge) :
    (advanceT d st r e).rak_usage =
      if e.is_start then st.rak_usage
      else st.rak_usage.set e.index ((st.rak_usage.getD e.index 0 + 1) % 256) := rfl

/-! ### Soundness of the target-seeking recursion -/

theorem etp_sound (d : RegattaData) (maxP : ℕ) (start : ℕ) (t0 : ℝ) :
    ∀ n : ℕ,
      (∀ st acc, st.remaining_steps ≤ n → TStateOK d start t0 st →
        ∀ p ∈ etpRec d maxP st acc,
          p ∈ acc ∨ GoodT d start st.target_point t0 p) ∧
      (∀ r st es, r < n → TStateOK d start t0 st →
        (∀ e ∈ es, e ∈ outEdges d st.current_point) →
        ∀ acc, ∀ p ∈ etpLoop d maxP r st es acc,
          p ∈ acc ∨ GoodT d start st.target_point t0 p) := by
  intro n
  induction n with
  | zero =>
    constructor
    · intro st acc hrem hok p hp
      rw [etpRec_eq] at hp
      by_cases htgt : st.current_point = st.target_point
      · rw [if_pos htgt] at hp
        rcases List.mem_append.mp hp with h | h
        · exact Or.inl h
        · right
          rw [List.mem_singleton.mp h]
          exact TStateOK_push d start t0 st hok htgt
      · rw [if_neg htgt, if_pos (show st.remaining_steps = 0 by omega)] at hp
        exact Or.inl hp
    · intro r _ _ hr
      exact absurd hr (Nat.not_lt_zero r)
  | succ n ih =>
    have hq : ∀ r st es, r < n + 1 → TStateOK d start t0 st →
        (∀ e ∈ es, e ∈ outEdges d st.current_point) →
        ∀ acc, ∀ p ∈ etpLoop d maxP r st es acc,
          p ∈ acc ∨ GoodT d start st.target_point t0 p := by
      intro r st es hr hok
      induction es with
      | nil =>
        intro _ acc p hp
        rw [etpLoop_nil] at hp
        exact Or.inl hp
      | cons e rest ihes =>
        intro hes acc p hp
        rw [etpLoop_cons] at hp
        have he := (mem_outEdges d st.current_point e).mp
          (hes e (List.mem_cons_self e rest))
        by_cases hskip : skipEdgeT d st e = true
        · rw [if_pos hskip] at hp
          exact ihes (fun e' h' => hes e' (List.mem_cons_of_mem e h')) acc p hp
        · have hskipf : skipEdgeT d st e = false := by
            simpa using hskip
          rw [if_neg hskip] at hp
          have hok2 : TStateOK d start t0 (advanceT d st r e) :=
            TStateOK_advance d start t0 st r e hok he.1 he.2 hskipf
          have htp := (advanceT_fields d st r e).2.1
          have hrec : ∀ p ∈ etpRec d maxP (advanceT d st r e) acc,
              p ∈ acc ∨ GoodT d start st.target_point t0 p := by
            intro p' hp'
            rcases ih.1 (advanceT d st r e) acc
              (by rw [(advanceT_fields d st r e).2.2]; omega) hok2 p' hp' with h | h
            · exact Or.inl h
            · right; rwa [htp] at h
          by_cases hlen : maxP ≤ (etpRec d maxP (advanceT d st r e) acc).length
          · rw [if_pos hlen] at hp
            exact hrec p hp
          · rw [if_neg hlen] at hp
            rcases ihes (fun e' h' => hes e' (List.mem_cons_of_mem e h'))
              (etpRec d maxP (advanceT d st r e) acc) p hp with h | h
            · exact hrec p h
            · exact Or.inr h
    refine ⟨?_, hq⟩
    intro st acc hrem hok p hp
    rw [etpRec_eq] at hp
    by_cases htgt : st.current_point = st.target_point
    · rw [if_pos htgt] at hp
      rcases List.mem_append.mp hp with h | h
      · exact Or.inl h
      · right
        rw [List.mem_singleton.mp h]
        exact TStateOK_push d start t0 st hok htgt
    · rw [if_neg htgt] at hp
      by_cases hz : st.remaining_steps = 0
      · rw [if_pos hz] at hp
        exact Or.inl hp
      · rw [if_neg hz] at hp
        exact hq (st.remaining_steps - 1) st (outEdges d st.current_point)
          (by omega) hok (fun _ h => h) acc p hp

theorem explore_target_paths_sound (d : RegattaData) (start tgt : ℕ) (t0 : ℝ)
    (maxSteps : ℕ) (mp : Option ℕ) (ps : List Path)
    (h : explore_target_paths d start tgt t0 maxSteps mp = .ok ps) :
    ∀ p ∈ ps, GoodT d start tgt t0 p := by
  unfold explore_target_paths at h
  by_cases h1 : d.boeien.length ≤ start
  · rw [if_pos h1] at h; exact absurd h (by simp)
  · rw [if_neg h1] at h
    by_cases h2 : d.boeien.length ≤ tgt
    · rw [if_pos h2] at h; exact absurd h (by simp)
    · rw [if_neg h2] at h
      have hps := (Except.ok.inj h).symm
      intro p hp
      rw [hps] at hp
      rcases (etp_sound d (mp.getD usizeMax) start t0 maxSteps).1 _ []
        (le_refl _) (TStateOK_init d start tgt t0 maxSteps) p hp with hmem | hgood
      · exact absurd hmem (List.not_mem_nil p)
      · exact hgood

/-! ### Soundness of the fixed-depth recursion -/

theorem ep_sound (d : RegattaData) (maxP : ℕ) (start : ℕ) (t0 : ℝ) :
    ∀ n : ℕ,
      (∀ st acc, st.remaining_steps ≤ n → FStateOK d start t0 st →
        ∀ p ∈ epRec d maxP st acc, p ∈ acc ∨ GoodF d start t0 p) ∧
      (∀ r st es, r < n → FStateOK d start t0 st →
        (∀ e ∈ es, e ∈ outEdges d st.current_point) →
        ∀ acc, ∀ p ∈ epLoop d maxP r st es acc,
          p ∈ acc ∨ GoodF d start t0 p) := by
  intro n
  induction n with
  | zero =>
    constructor
    · intro st acc hrem hok p hp
      rw [epRec_eq, if_pos (show st.remaining_steps = 0 by omega)] at hp
      rcases List.mem_append.mp hp with h | h
      · exact Or.inl h
      · right
        rw [List.mem_singleton.mp h]
        exact FStateOK_push d start t0 st hok
    · intro r _ _ hr
      exact absurd hr (Nat.not_lt_zero r)
  | succ n ih =>
    have hq : ∀ r st es, r < n + 1 → FStateOK d start t0 st →
        (∀ e ∈ es, e ∈ outEdges d st.current_point) →
        ∀ acc, ∀ p ∈ epLoop d maxP r st es acc,
          p ∈ acc ∨ GoodF d start t0 p := by
      intro r st es hr hok
      induction es with
      | nil =>
        intro _ acc p hp
        rw [epLoop_nil] at hp
        exact Or.inl hp
      | cons e rest ihes =>
        intro hes acc p hp
        rw [epLoop_cons] at hp
        have he := (mem_outEdges d st.current_point e).mp
          (hes e (List.mem_cons_self e rest))
        by_cases hskip : skipEdgeF d st e = true
        · rw [if_pos hskip] at hp
          exact ihes (fun e' h' => hes e' (List.mem_cons_of_mem e h')) acc p hp
        · have hskipf : skipEdgeF d st e = false := by
            simpa using hskip
          rw [if_neg hskip] at hp
          have hok2 : FStateOK d start t0 (advanceF d st r e) :=
            FStateOK_advance d start t0 st r e hok he.1 he.2 hskipf
          rcases ihes (fun e' h' => hes e' (List.mem_cons_of_mem e h'))
            (epRec d maxP (advanceF d st r e) acc) p hp with h | h
          · exact ih.1 (advanceF d st r e) acc
              (by rw [(advanceF_fields d st r e).2]; omega) hok2 p h
          · exact Or.inr h
    refine ⟨?_, hq⟩
    intro st acc hrem hok p hp
    rw [epRec_eq] at hp
    by_cases hz : st.remaining_steps = 0
    · rw [if_pos hz] at hp
      rcases List.mem_append.mp hp with h | h
      · exact Or.inl h
      · right
        rw [List.mem_singleton.mp h]
        exact FStateOK_push d start t0 st hok
    · rw [if_neg hz] at hp
      exact hq (st.remaining_steps - 1) st (outEdges d st.current_point)
        (by omega) hok (fun _ h => h) acc p hp

theorem explore_paths_sound (d : RegattaData) (start : ℕ) (t0 : ℝ)
    (numSteps : ℕ) (mp : Option ℕ) (ps : List Path)
    (h : explore_paths d start t0 numSteps mp = .ok ps) :
    ∀ p ∈ ps, GoodF d start t0 p := by
  unfold explore_paths at h
  by_cases h1 : d.boeien.length ≤ start
  · rw [if_pos h1] at h; exact absurd h (by simp)
  · rw [if_neg h1] at h
    have hps := (Except.ok.inj h).symm
    intro p hp
    rw [hps] at hp
    rcases (ep_sound d (mp.getD usizeMax) start t0 numSteps).1 _ []
      (le_refl _) (FStateOK_init d start t0 numSteps) p hp with hmem | hgood
    · exact absurd hmem (List.not_mem_nil p)
    · exact hgood

/-! ### Monotonicity of the target-seeking recursion -/

theorem etp_mono (d : RegattaData) (maxP : ℕ) :
    ∀ n : ℕ,
      (∀ st acc, st.remaining_steps ≤ n →
        acc.length ≤ (etpRec d maxP st acc).length) ∧
      (∀ r st es, r < n → ∀ acc,
        acc.length ≤ (etpLoop d maxP r st es acc).length) := by
  intro n
  induction n with
  | zero =>
    constructor
    · intro st acc hrem
      rw [etpRec_eq]
      by_cases htgt : st.current_point = st.target_point
      · rw [if_pos htgt]; simp
      · rw [if_neg htgt, if_pos (show st.remaining_steps = 0 by omega)]
    · intro r _ _ hr
      exact absurd hr (Nat.not_lt_zero r)
  | succ n ih =>
    have hq : ∀ r st es, r < n + 1 → ∀ acc,
        acc.length ≤ (etpLoop d maxP r st es acc).length := by
      intro r st es hr
      induction es with
      | nil =>
        intro acc
        rw [etpLoop_nil]
      | cons e rest ihes =>
        intro acc
        rw [etpLoop_cons]
        by_cases hskip : skipEdgeT d st e = true
        · rw [if_pos hskip]
          exact ihes acc
        · rw [if_neg hskip]
          have h1 : acc.length ≤ (etpRec d maxP (advanceT d st r e) acc).length :=
            ih.1 (advanceT d st r e) acc
              (by rw [(advanceT_fields d st r e).2.2]; omega)
          by_cases hlen : maxP ≤ (etpRec d maxP (advanceT d st r e) acc).length
          · rw [if_pos hlen]
            exact h1
          · rw [if_neg hlen]
            exact le_trans h1 (ihes _)
    refine ⟨?_, hq⟩
    intro st acc hrem
    rw [etpRec_eq]
    by_cases htgt : st.current_point = st.target_point
    · rw [if_pos htgt]; simp
    · rw [if_neg htgt]
      by_cases hz : st.remaining_steps = 0
      · rw [if_pos hz]
      · rw [if_neg hz]
        exact hq (st.remaining_steps - 1) st (outEdges d st.current_point)
          (by omega) acc

/-! ### Progress of the target-seeking recursion -/

theorem etp_progress (d : RegattaData) (maxP : ℕ) :
    ∀ n : ℕ,
      (∀ st acc es, st.remaining_steps ≤ n →
        FeasWalk d st.current_point st.edges_used st.rak_usage es st.target_point →
        es.length ≤ st.remaining_steps →
        maxP ≤ (etpRec d maxP st acc).length ∨
          acc.length < (etpRec d maxP st acc).length) ∧
      (∀ r st fs, r < n → ∀ e es2, e ∈ fs → skipEdgeT d st e = false →
        FeasWalk d e.dst (advanceT d st r e).edges_used
          (advanceT d st r e).rak_usage es2 st.target_point →
        es2.length ≤ r →
        ∀ acc, maxP ≤ (etpLoop d maxP r st fs acc).length ∨
          acc.length < (etpLoop d maxP r st fs acc).length) := by
  intro n
  induction n with
  | zero =>
    constructor
    · intro st acc es hrem hfw hlen
      rw [etpRec_eq]
      by_cases htgt : st.current_point = st.target_point
      · rw [if_pos htgt]
        right
        simp
      · cases es with
        | nil => exact absurd hfw htgt
        | cons e es2 => simp at hlen; omega
    · intro r _ _ hr
      exact absurd hr (Nat.not_lt_zero r)
  | succ n ih =>
    have hq : ∀ r st fs, r < n + 1 → ∀ e es2, e ∈ fs →
        skipEdgeT d st e = false →
        FeasWalk d e.dst (advanceT d st r e).edges_used
          (advanceT d st r e).rak_usage es2 st.target_point →
        es2.length ≤ r →
        ∀ acc, maxP ≤ (etpLoop d maxP r st fs acc).length ∨
          acc.length < (etpLoop d maxP r st fs acc).length := by
      intro r st fs hr
      induction fs with
      | nil =>
        intro e es2 hef
        exact absurd hef (List.not_mem_nil e)
      | cons f rest ihfs =>
        intro e es2 hef hskip hfw hlen acc
        rw [etpLoop_cons]
        by_cases hskf : skipEdgeT d st f = true
        · rw [if_pos hskf]
          have hef' : e ∈ rest := by
            rcases List.mem_cons.mp hef with rfl | h
            · rw [hskip] at hskf; exact absurd hskf (by simp)
            · exact h
          exact ihfs e es2 hef' hskip hfw hlen acc
        · rw [if_neg hskf]
          by_cases hlen2 : maxP ≤ (etpRec d maxP (advanceT d st r f) acc).length
          · rw [if_pos hlen2]
            exact Or.inl hlen2
          · rw [if_neg hlen2]
            rcases List.mem_cons.mp hef with heq | hef'
            · subst heq
              have hP := ih.1 (advanceT d st r e) acc es2
                (by rw [(advanceT_fields d st r e).2.2]; omega)
                (by rw [(advanceT_fields d st r e).1,
                    (advanceT_fields d st r e).2.1]; exact hfw)
                (by rw [(advanceT_fields d st r e).2.2]; exact hlen)
              rcases hP with h | h
              · exact absurd h hlen2
              · right
                have h2 := (etp_mono d maxP (r + 1)).2 r st rest
                  (Nat.lt_succ_self r) (etpRec d maxP (advanceT d st r e) acc)
                omega
            · have h1 : acc.length ≤ (etpRec d maxP (advanceT d st r f) acc).length :=
                (etp_mono d maxP (r + 1)).1 (advanceT d st r f) acc
                  (by rw [(advanceT_fields d st r f).2.2]; omega)
              rcases ihfs e es2 hef' hskip hfw hlen
                (etpRec d maxP (advanceT d st r f) acc) with h | h
              · exact Or.inl h
              · right; omega
    refine ⟨?_, hq⟩
    intro st acc es hrem hfw hlen
    rw [etpRec_eq]
    by_cases htgt : st.current_point = st.target_point
    · rw [if_pos htgt]
      right
      simp
    · rw [if_neg htgt]
      cases es with
      | nil => exact absurd hfw htgt
      | cons e es2 =>
        have hz : st.remaining_steps ≠ 0 := by simp at hlen; omega
        rw [if_neg hz]
        obtain ⟨hg, hsrc, hu, hrk2, hcont⟩ := hfw
        refine hq (st.remaining_steps - 1) st (outEdges d st.current_point)
          (by omega) e es2 ((mem_outEdges d st.current_point e).mpr ⟨hg, hsrc⟩)
          ((skipEdgeT_false d st e).mpr ⟨hu, hrk2⟩) ?_ (by simp at hlen; omega) acc
        rw [advanceT_used, advanceT_rak]
        exact hcont

/-- Completeness of `explore_target_paths`: a usage-feasible walk of length
within the step budget guarantees a nonempty result (with the default
`usize::MAX` path cap). -/
theorem explore_target_paths_complete (d : RegattaData) (start tgt : ℕ)
    (t0 : ℝ) (maxSteps : ℕ) (es : List GEdge)
    (hs : start < d.boeien.length) (ht : tgt < d.boeien.length)
    (hfeas : FeasWalk d start
      (List.replicate (d.starts.length + d.rakken.length) 0)
      (List.replicate d.rakken.length 0) es tgt)
    (hlen : es.length ≤ maxSteps) :
    ∃ ps, explore_target_paths d start tgt t0 maxSteps none = .ok ps ∧
      ps ≠ [] := by
  unfold explore_target_paths
  rw [if_neg (by omega), if_neg (by omega)]
  refine ⟨_, rfl, ?_⟩
  have hprog := (etp_progress d ((none : Option ℕ).getD usizeMax) maxSteps).1
    { current_point := start
      target_point := tgt
      current_time := t0
      remaining_steps := maxSteps
      current_steps := []
      edges_used := List.replicate (d.starts.length + d.rakken.length) 0
      rak_usage := List.replicate d.rakken.length 0
      total_distance := 0 } [] es (le_refl _) hfeas hlen
  have husize : 1 ≤ usizeMax := by
    unfold usizeMax
    norm_num
  rcases hprog with h | h
  · intro hnil
    rw [hnil] at h
    simp only [List.length_nil, Option.getD_none] at h
    omega
  · intro hnil
    rw [hnil] at h
    simp at h

/-! ### Range of the estimator's bearings -/

theorem atan2_bounds (y x : ℝ) : -Real.pi < atan2 y x ∧ atan2 y x ≤ Real.pi := by
  have h := Complex.arg_mem_Ioc ⟨x, y⟩
  exact ⟨h.1, h.2⟩

theorem rustRem360_bounds (x : ℝ) (hx : 0 ≤ x) :
    0 ≤ rustRem x 360 ∧ rustRem x 360 < 360 := by
  have h360 : (0 : ℝ) < 360 := by norm_num
  have hq : 0 ≤ x / 360 := div_nonneg hx (le_of_lt h360)
  unfold rustRem
  rw [if_pos hq]
  have hfr : x - 360 * ((⌊x / 360⌋ : ℤ) : ℝ) = 360 * Int.fract (x / 360) := by
    rw [Int.fract, mul_sub, mul_div_cancel₀ x (by norm_num : (360 : ℝ) ≠ 0)]
  rw [hfr]
  refine ⟨mul_nonneg (by norm_num) (Int.fract_nonneg _), ?_⟩
  have h1 : 360 * Int.fract (x / 360) < 360 * 1 :=
    mul_lt_mul_of_pos_left (Int.fract_lt_one _) h360
  linarith

theorem courseRB_bounds (a wd : ℝ) (hA : -Real.pi < a)
    (hw1 : 0 ≤ wd) (hw2 : wd ≤ 360) :
    (0 ≤ rustRem (a * 180 / Real.pi + 360) 360 ∧
      rustRem (a * 180 / Real.pi + 360) 360 < 360) ∧
    (0 ≤ (if |wd - rustRem (a * 180 / Real.pi + 360) 360| > 180 then
        360 - |wd - rustRem (a * 180 / Real.pi + 360) 360|
      else |wd - rustRem (a * 180 / Real.pi + 360) 360|) ∧
      (if |wd - rustRem (a * 180 / Real.pi + 360) 360| > 180 then
        360 - |wd - rustRem (a * 180 / Real.pi + 360) 360|
      else |wd - rustRem (a * 180 / Real.pi + 360) 360|) ≤ 180) := by
  have hpi := Real.pi_pos
  have hdeg : -180 < a * 180 / Real.pi := by
    rw [lt_div_iff hpi]
    have := mul_lt_mul_of_pos_right hA (by norm_num : (0 : ℝ) < 180)
    linarith
  have hx : 0 ≤ a * 180 / Real.pi + 360 := by linarith
  have hcb := rustRem360_bounds (a * 180 / Real.pi + 360) hx
  refine ⟨hcb, ?_, ?_⟩
  · by_cases h : |wd - rustRem (a * 180 / Real.pi + 360) 360| > 180
    · rw [if_pos h]
      have habs : |wd - rustRem (a * 180 / Real.pi + 360) 360| ≤ 360 :=
        abs_le.mpr ⟨by linarith [hcb.2], by linarith [hcb.1]⟩
      linarith
    · rw [if_neg h]
      exact abs_nonneg _
  · by_cases h : |wd - rustRem (a * 180 / Real.pi + 360) 360| > 180
    · rw [if_pos h]
      linarith
    · rw [if_neg h]
      linarith [not_lt.mp h]

theorem estimate_bearing_ranges (d : RegattaData) (from_ to_ : ℕ) (time : ℝ)
    (hw1 : 0 ≤ (d.windAt time).wind_angle)
    (hw2 : (d.windAt time).wind_angle ≤ 360) :
    (0 ≤ (estimate_leg_performance d from_ to_ time).relative_bearing ∧
      (estimate_leg_performance d from_ to_ time).relative_bearing ≤ 180) ∧
    (0 ≤ (estimate_leg_performance d from_ to_ time).course_bearing ∧
      (estimate_leg_performance d from_ to_ time).course_bearing < 360) := by
  have key := courseRB_bounds
    (atan2
      (Real.sin ((d.boeien.getD to_ default).long.getD 0 * Real.pi / 180 -
          (d.boeien.getD from_ default).long.getD 0 * Real.pi / 180) *
        Real.cos ((d.boeien.getD to_ default).lat.getD 0 * Real.pi / 180))
      (Real.cos ((d.boeien.getD from_ default).lat.getD 0 * Real.pi / 180) *
          Real.sin ((d.boeien.getD to_ default).lat.getD 0 * Real.pi / 180) -
        Real.sin ((d.boeien.getD from_ default).lat.getD 0 * Real.pi / 180) *
          Real.cos ((d.boeien.getD to_ default).lat.getD 0 * Real.pi / 180) *
          Real.cos ((d.boeien.getD to_ default).long.getD 0 * Real.pi / 180 -
            (d.boeien.getD from_ default).long.getD 0 * Real.pi / 180)))
    (d.windAt time).wind_angle (atan2_bounds _ _).1 hw1 hw2
  exact ⟨⟨key.2.1, key.2.2⟩, key.1⟩


theorem advanceF_five (d : RegattaData) (hp : d.polarSpeed = scPolar)
    (st : PathExplorationState) (r : ℕ) (e : GEdge) :
    advanceF d st r e =
      { current_point := e.dst
        current_time := st.current_time + e.distance / 5
        remaining_steps := r
        current_steps := st.current_steps ++
          [⟨st.current_point, e.dst, e.distance, 5, st.current_time,
            st.current_time + e.distance / 5⟩]
        edges_used := st.edges_used.set (entityIdx d e)
          ((st.edges_used.getD (entityIdx d e) 0 + 1) % 256)
        total_distance := st.total_distance + e.distance } := by
  have h5 : (estimate_leg_performance d st.current_point e.dst
      st.current_time).estimated_speed = 5 := by
    simp [estimate_leg_performance, hp, scPolar]
  simp only [advanceF, h5]
  norm_num

theorem advanceT_five (d : RegattaData) (hp : d.polarSpeed = scPolar)
    (st : TargetPathExplorationState) (r : ℕ) (e : GEdge) :
    advanceT d st r e =
      { current_point := e.dst
        target_point := st.target_point
        current_time := st.current_time + e.distance / 5
        remaining_steps := r
        current_steps := st.current_steps ++
          [⟨st.current_point, e.dst, e.distance, 5, st.current_time,
            st.current_time + e.distance / 5⟩]
        edges_used := st.edges_used.set (entityIdx d e)
          ((st.edges_used.getD (entityIdx d e) 0 + 1) % 256)
        rak_usage := if e.is_start then st.rak_usage
          else st.rak_usage.set e.index ((st.rak_usage.getD e.index 0 + 1) % 256)
        total_distance := st.total_distance + e.distance } := by
  have h5 : (estimate_leg_performance d st.current_point e.dst
      st.current_time).estimated_speed = 5 := by
    simp [estimate_leg_performance, hp, scPolar]
  simp only [advanceT, h5]
  norm_num





/-! ### Directed small-step lemmas for concrete evaluation -/

theorem etpRec_push (d : RegattaData) (maxP : ℕ) (st : TargetPathExplorationState)
    (acc : List Path) (h : st.current_point = st.target_point) :
    etpRec d maxP st acc =
      acc ++ [⟨st.current_steps, st.total_distance, st.current_time⟩] := by
  rw [etpRec_eq, if_pos h]

theorem etpRec_go (d : RegattaData) (maxP : ℕ) (st : TargetPathExplorationState)
    (acc : List Path) (h1 : ¬st.current_point = st.target_point)
    (h2 : ¬st.remaining_steps = 0) :
    etpRec d maxP st acc =
      etpLoop d maxP (st.remaining_steps - 1) st (outEdges d st.current_point) acc := by
  rw [etpRec_eq, if_neg h1, if_neg h2]

theorem etpRec_stop (d : RegattaData) (maxP : ℕ) (st : TargetPathExplorationState)
    (acc : List Path) (h1 : ¬st.current_point = st.target_point)
    (h2 : st.remaining_steps = 0) :
    etpRec d maxP st acc = acc := by
  rw [etpRec_eq, if_neg h1, if_pos h2]

theorem etpLoop_skip (d : RegattaData) (maxP r : ℕ)
    (st : TargetPathExplorationState) (e : GEdge) (rest : List GEdge)
    (acc : List Path) (h : skipEdgeT d st e = true) :
    etpLoop d maxP r st (e :: rest) acc = etpLoop d maxP r st rest acc := by
  rw [etpLoop_cons, if_pos h]

theorem etpLoop_go (d : RegattaData) (maxP r : ℕ)
    (st : TargetPathExplorationState) (e : GEdge) (rest : List GEdge)
    (acc : List Path) (h : skipEdgeT d st e = false)
    (hsmall : ¬maxP ≤ (etpRec d maxP (advanceT d st r e) acc).length) :
    etpLoop d maxP r st (e :: rest) acc =
      etpLoop d maxP r st rest (etpRec d maxP (advanceT d st r e) acc) := by
  rw [etpLoop_cons, if_neg (by simp [h]), if_neg hsmall]

theorem epRec_push (d : RegattaData) (maxP : ℕ) (st : PathExplorationState)
    (acc : List Path) (h : st.remaining_steps = 0) :
    epRec d maxP st acc =
      acc ++ [⟨st.current_steps, st.total_distance, st.current_time⟩] := by
  rw [epRec_eq, if_pos h]

theorem epRec_go (d : RegattaData) (maxP : ℕ) (st : PathExplorationState)
    (acc : List Path) (h : ¬st.remaining_steps = 0) :
    epRec d maxP st acc =
      epLoop d maxP (st.remaining_steps - 1) st (outEdges d st.current_point) acc := by
  rw [epRec_eq, if_neg h]

theorem epLoop_skip (d : RegattaData) (maxP r : ℕ) (st : PathExplorationState)
    (e : GEdge) (rest : List GEdge) (acc : List Path)
    (h : skipEdgeF d st e = true) :
    epLoop d maxP r st (e :: rest) acc = epLoop d maxP r st rest acc := by
  rw [epLoop_cons, if_pos h]

theorem epLoop_go (d : RegattaData) (maxP r : ℕ) (st : PathExplorationState)
    (e : GEdge) (rest : List GEdge) (acc : List Path)
    (h : skipEdgeF d st e = false) :
    epLoop d maxP r st (e :: rest) acc =
      epLoop d maxP r st rest (epRec d maxP (advanceF d st r e) acc) := by
  rw [epLoop_cons, if_neg (by simp [h])]

/-! ### Concrete evaluations -/

theorem scAB_out0 : outEdges scAB 0 = [⟨0, 1, 1, false, 0⟩] := rfl

theorem scAB_polar : scAB.polarSpeed = scPolar := rfl

theorem etp_scAB_eval :
    explore_target_paths scAB 0 1 0 1 none = .ok [pAB] := by
  have hIn :
      etpRec scAB usizeMax
        (advanceT scAB ⟨0, 1, 0, 1, [], [0], [0], 0⟩ 0 ⟨0, 1, 1, false, 0⟩) [] =
      [pAB] := by
    rw [advanceT_five scAB scAB_polar]
    rw [etpRec_push _ _ _ _ (by decide)]
    norm_num [pAB, stepAB]
  have hLoop :
      etpLoop scAB usizeMax 0 ⟨0, 1, 0, 1, [], [0], [0], 0⟩
        [⟨0, 1, 1, false, 0⟩] [] = [pAB] := by
    rw [etpLoop_go _ _ _ _ _ _ _ (by decide) (by rw [hIn]; decide)]
    rw [hIn, etpLoop_nil]
  have hTop : etpRec scAB usizeMax ⟨0, 1, 0, 1, [], [0], [0], 0⟩ [] = [pAB] := by
    rw [etpRec_go _ _ _ _ (by decide) (by decide)]
    exact hLoop
  unfold explore_target_paths
  rw [if_neg (by decide), if_neg (by decide)]
  exact congrArg Except.ok hTop


theorem scABC_out0 : outEdges scABC 0 = [⟨0, 1, 1, false, 0⟩] := rfl

theorem scABC_out1 : outEdges scABC 1 = [⟨1, 2, 1, false, 1⟩, ⟨1, 0, 1, false, 0⟩] := rfl

theorem scABC_polar : scABC.polarSpeed = scPolar := rfl

theorem ep_scABC_eval (maxP : ℕ) :
    epRec scABC maxP ⟨0, 0, 2, [], [0, 0], 0⟩ [] = [pABC, pABA] := by
  have hA1 : advanceF scABC ⟨0, 0, 2, [], [0, 0], 0⟩ 1 ⟨0, 1, 1, false, 0⟩ =
      ⟨1, 0 + 1 / 5, 1, [⟨0, 1, 1, 5, 0, 0 + 1 / 5⟩], [1, 0], 0 + 1⟩ := by
    rw [advanceF_five scABC scABC_polar]
    rfl
  have hA2 : advanceF scABC
      ⟨1, 0 + 1 / 5, 1, [⟨0, 1, 1, 5, 0, 0 + 1 / 5⟩], [1, 0], 0 + 1⟩ 0
      ⟨1, 2, 1, false, 1⟩ =
      ⟨2, 0 + 1 / 5 + 1 / 5, 0,
        [⟨0, 1, 1, 5, 0, 0 + 1 / 5⟩, ⟨1, 2, 1, 5, 0 + 1 / 5, 0 + 1 / 5 + 1 / 5⟩],
        [1, 1], 0 + 1 + 1⟩ := by
    rw [advanceF_five scABC scABC_polar]
    rfl
  have hA3 : advanceF scABC
      ⟨1, 0 + 1 / 5, 1, [⟨0, 1, 1, 5, 0, 0 + 1 / 5⟩], [1, 0], 0 + 1⟩ 0
      ⟨1, 0, 1, false, 0⟩ =
      ⟨0, 0 + 1 / 5 + 1 / 5, 0,
        [⟨0, 1, 1, 5, 0, 0 + 1 / 5⟩, ⟨1, 0, 1, 5, 0 + 1 / 5, 0 + 1 / 5 + 1 / 5⟩],
        [2, 0], 0 + 1 + 1⟩ := by
    rw [advanceF_five scABC scABC_polar]
    rfl
  have hInner : epRec scABC maxP
      ⟨1, 0 + 1 / 5, 1, [⟨0, 1, 1, 5, 0, 0 + 1 / 5⟩], [1, 0], 0 + 1⟩ [] =
      [⟨[⟨0, 1, 1, 5, 0, 0 + 1 / 5⟩, ⟨1, 2, 1, 5, 0 + 1 / 5, 0 + 1 / 5 + 1 / 5⟩],
          0 + 1 + 1, 0 + 1 / 5 + 1 / 5⟩,
        ⟨[⟨0, 1, 1, 5, 0, 0 + 1 / 5⟩, ⟨1, 0, 1, 5, 0 + 1 / 5, 0 + 1 / 5 + 1 / 5⟩],
          0 + 1 + 1, 0 + 1 / 5 + 1 / 5⟩] := by
    rw [epRec_go _ _ _ _ (by decide)]
    show epLoop scABC maxP 0
      ⟨1, 0 + 1 / 5, 1, [⟨0, 1, 1, 5, 0, 0 + 1 / 5⟩], [1, 0], 0 + 1⟩
      [⟨1, 2, 1, false, 1⟩, ⟨1, 0, 1, false, 0⟩] [] = _
    rw [epLoop_go _ _ _ _ _ _ _ (by decide), hA2, epRec_push _ _ _ _ rfl]
    rw [epLoop_go _ _ _ _ _ _ _ (by decide), hA3, epRec_push _ _ _ _ rfl]
    rw [epLoop_nil]
    simp
  rw [epRec_go _ _ _ _ (by decide)]
  show epLoop scABC maxP 1 ⟨0, 0, 2, [], [0, 0], 0⟩ [⟨0, 1, 1, false, 0⟩] [] = _
  rw [epLoop_go _ _ _ _ _ _ _ (by decide), hA1, hInner, epLoop_nil]
  norm_num [pABC, pABA, stepAB, stepBC, stepBA]

theorem explore_paths_scABC_eval (mp : Option ℕ) :
    explore_paths scABC 0 0 2 mp = .ok [pABC, pABA] := by
  unfold explore_paths
  rw [if_neg (by decide)]
  exact congrArg Except.ok (ep_scABC_eval (mp.getD usizeMax))

theorem sc256_out0 : outEdges sc256 0 = [⟨0, 1, 1, false, 1⟩, ⟨0, 1, 1, false, 0⟩] := rfl

theorem sc256_polar : sc256.polarSpeed = scPolar := rfl

theorem explore_paths_sc256_eval :
    explore_paths sc256 0 0 1 none = .ok [pAB] := by
  have hA1 : advanceF sc256 ⟨0, 0, 1, [], [0, 0], 0⟩ 0 ⟨0, 1, 1, false, 1⟩ =
      ⟨1, 0 + 1 / 5, 0, [⟨0, 1, 1, 5, 0, 0 + 1 / 5⟩], [0, 1], 0 + 1⟩ := by
    rw [advanceF_five sc256 sc256_polar]
    rfl
  have hTop : epRec sc256 usizeMax ⟨0, 0, 1, [], [0, 0], 0⟩ [] = [pAB] := by
    rw [epRec_go _ _ _ _ (by decide)]
    show epLoop sc256 usizeMax 0 ⟨0, 0, 1, [], [0, 0], 0⟩
      [⟨0, 1, 1, false, 1⟩, ⟨0, 1, 1, false, 0⟩] [] = _
    rw [epLoop_go _ _ _ _ _ _ _ (by decide), hA1, epRec_push _ _ _ _ rfl]
    rw [epLoop_skip _ _ _ _ _ _ _ (by decide), epLoop_nil]
    norm_num [pAB, stepAB]
  unfold explore_paths
  rw [if_neg (by decide)]
  exact congrArg Except.ok hTop

theorem scZero_out0 : outEdges scZero 0 = [⟨0, 1, 1, false, 0⟩] := rfl

theorem etp_scZero_eval :
    explore_target_paths scZero 0 1 0 1 none = .ok [] := by
  have hTop : etpRec scZero usizeMax ⟨0, 1, 0, 1, [], [0], [0], 0⟩ [] = [] := by
    rw [etpRec_go _ _ _ _ (by decide) (by decide)]
    show etpLoop scZero usizeMax 0 ⟨0, 1, 0, 1, [], [0], [0], 0⟩
      [⟨0, 1, 1, false, 0⟩] [] = _
    rw [etpLoop_skip _ _ _ _ _ _ _ (by decide), etpLoop_nil]
  unfold explore_target_paths
  rw [if_neg (by decide), if_neg (by decide)]
  exact congrArg Except.ok hTop

theorem scAB_graph : graphEdgeList scAB = [⟨0, 1, 1, false, 0⟩, ⟨1, 0, 1, false, 0⟩] := rfl

theorem scZero_graph : graphEdgeList scZero = [⟨0, 1, 1, false, 0⟩, ⟨1, 0, 1, false, 0⟩] := rfl


/-! ### The claims -/

/-- C1: every path returned by `explore_target_paths` is realized by a walk
of graph edges along which each start or leg entity is traversed at most
its configured `max_number` times, and no leg (Rak) entity is traversed
more than twice across the whole path. -/
theorem C1_usage_bounds (d : RegattaData) (start tgt : ℕ) (t0 : ℝ)
    (maxSteps : ℕ) (mp : Option ℕ) (ps : List Path) (p : Path)
    (hret : explore_target_paths d start tgt t0 maxSteps mp = .ok ps)
    (hp : p ∈ ps) :
    ∃ es : List GEdge,
      (∀ e ∈ es, e ∈ graphEdgeList d) ∧ StepsMatch es p.steps ∧
        (∀ i, entityCount d es i ≤ entityMax d i) ∧
        (∀ j, rakCount es j ≤ 2) := by
  obtain ⟨_, _, _, es, hg, hm, hbu, hbr⟩ :=
    explore_target_paths_sound d start tgt t0 maxSteps mp ps hret p hp
  exact ⟨es, hg, hm, fun i => le_trans (hbu i) (Nat.mod_le _ _), hbr⟩

/-- Witness for C1 at the two-buoy dataset: the returned path A→B respects
all usage bounds. -/
theorem C1_usage_bounds_witness :
    (explore_target_paths scAB 0 1 0 1 none = .ok [pAB] ∧ pAB ∈ [pAB]) ∧
      ∃ es : List GEdge,
        (∀ e ∈ es, e ∈ graphEdgeList scAB) ∧ StepsMatch es pAB.steps ∧
          (∀ i, entityCount scAB es i ≤ entityMax scAB i) ∧
          (∀ j, rakCount es j ≤ 2) :=
  ⟨⟨etp_scAB_eval, by simp⟩,
    C1_usage_bounds scAB 0 1 0 1 none [pAB] pAB etp_scAB_eval (by simp)⟩

/-- C2: at the failing input (§8 scenario, `numSteps = 2`,
`maxPaths = Some 1`) the fixed-depth explorer returns 2 paths: the
`max_paths` cap has no effect in fixed-depth mode (its check in the source
returns identically in both branches and the edge loop never tests it),
contradicting both the spec and the parameter's own documentation. -/
theorem C2_cap_ignored :
    explore_paths scABC 0 0 2 (some 1) = .ok [pABC, pABA] ∧
      ¬[pABC, pABA].length ≤ 1 :=
  ⟨explore_paths_scABC_eval (some 1), by simp⟩

/-- Counterexample to C3 as stated: the §8 scenario call returns TWO
distinct paths, not exactly one. -/
theorem C3_counterexample :
    explore_paths scABC 0 0 2 none = .ok [pABC, pABA] ∧ pABC ≠ pABA :=
  ⟨explore_paths_scABC_eval none, by simp [pABC, pABA, stepBC, stepBA]⟩

/-- C3 (amended): the §8 scenario call yields exactly the two paths A→B→C
and A→B→A (the leg A-B may be sailed out and back under its maximum of 2),
each with total_distance 2 and end_time 2/5 = 0.4. -/
theorem C3_two_paths :
    explore_paths scABC 0 0 2 none = .ok [pABC, pABA] ∧
      pABC.steps = [stepAB, stepBC] ∧ pABA.steps = [stepAB, stepBA] ∧
      pABC.total_distance = 2 ∧ pABC.end_time = 2 / 5 ∧
      pABA.total_distance = 2 ∧ pABA.end_time = 2 / 5 :=
  ⟨explore_paths_scABC_eval none, rfl, rfl, rfl, rfl, rfl, rfl⟩

/-- Counterexample to C4 as stated: in `scZero` the pair (0,1) is connected
by a one-edge walk of the route graph, yet `explore_target_paths` returns
no path at all, because the leg's `max_number = 0` forbids its use. -/
theorem C4_counterexample :
    WalkLe scZero 0 1 1 ∧ 0 < scZero.boeien.length ∧
      1 < scZero.boeien.length ∧
      explore_target_paths scZero 0 1 0 1 none = .ok [] :=
  ⟨Or.inr ⟨⟨0, 1, 1, false, 0⟩, by simp [scZero_graph], rfl, rfl⟩,
    by decide, by decide, etp_scZero_eval⟩

/-- C4 (amended): for valid distinct start/target indices connected by a
USAGE-FEASIBLE walk of at most `maxSteps` edges (each entity within its
`u8`-truncated maximum, each leg at most twice), `explore_target_paths`
with no path cap returns a nonempty list, and every returned path's final
step ends at the target. -/
theorem C4_reaches_target (d : RegattaData) (start tgt : ℕ) (t0 : ℝ)
    (maxSteps : ℕ) (es : List GEdge)
    (hs : start < d.boeien.length) (ht : tgt < d.boeien.length)
    (hne : start ≠ tgt)
    (hfeas : FeasWalk d start
      (List.replicate (d.starts.length + d.rakken.length) 0)
      (List.replicate d.rakken.length 0) es tgt)
    (hlen : es.length ≤ maxSteps) :
    ∃ ps, explore_target_paths d start tgt t0 maxSteps none = .ok ps ∧
      ps ≠ [] ∧ ∀ p ∈ ps, ∃ h : p.steps ≠ [], (p.steps.getLast h).to_ = tgt := by
  obtain ⟨ps, hok, hne2⟩ :=
    explore_target_paths_complete d start tgt t0 maxSteps es hs ht hfeas hlen
  refine ⟨ps, hok, hne2, ?_⟩
  intro p hp
  obtain ⟨hchain, _, _, _⟩ :=
    explore_target_paths_sound d start tgt t0 maxSteps none ps hok p hp
  have hsne : p.steps ≠ [] := by
    intro h
    rw [h] at hchain
    exact hne hchain.1.symm
  exact ⟨hsne, (chainSteps_getLast start t0 p.steps tgt p.end_time hchain hsne).1⟩

/-- Witness for C4 at the two-buoy dataset: the one-edge feasible walk A→B
makes the target-seeking search return at least one path ending at B. -/
theorem C4_reaches_target_witness :
    (0 < scAB.boeien.length ∧ 1 < scAB.boeien.length ∧ (0 : ℕ) ≠ 1 ∧
      FeasWalk scAB 0
        (List.replicate (scAB.starts.length + scAB.rakken.length) 0)
        (List.replicate scAB.rakken.length 0) [⟨0, 1, 1, false, 0⟩] 1) ∧
      ∃ ps, explore_target_paths scAB 0 1 0 1 none = .ok ps ∧ ps ≠ [] ∧
        ∀ p ∈ ps, ∃ h : p.steps ≠ [], (p.steps.getLast h).to_ = 1 :=
  ⟨⟨by decide, by decide, by decide,
      ⟨by simp [scAB_graph], rfl, by decide, fun _ => by decide, rfl⟩⟩,
    C4_reaches_target scAB 0 1 0 1 [⟨0, 1, 1, false, 0⟩] (by decide) (by decide)
      (by decide)
      ⟨by simp [scAB_graph], rfl, by decide, fun _ => by decide, rfl⟩
      (by decide)⟩

/-- C5: for every valid start index and start time, `explore_paths` with
zero steps returns exactly one path: the empty path at the start time with
zero distance. -/
theorem C5_zero_steps (d : RegattaData) (start : ℕ) (t0 : ℝ) (mp : Option ℕ)
    (hs : start < d.boeien.length) :
    explore_paths d start t0 0 mp = .ok [⟨[], 0, t0⟩] := by
  unfold explore_paths
  rw [if_neg (by omega)]
  congr 1
  rw [epRec_push _ _ _ _ rfl]
  rfl

/-- Witness for C5 at the two-buoy dataset. -/
theorem C5_zero_steps_witness :
    0 < scAB.boeien.length ∧
      explore_paths scAB 0 7 0 none = .ok [⟨[], 0, 7⟩] :=
  ⟨by decide, C5_zero_steps scAB 0 7 none (by decide)⟩

/-- C6: for valid endpoint indices with resolved coordinates, at any query
time (with the wind direction within [0,360], as the data model supplies),
the estimator returns a relative bearing in [0,180] and a course bearing in
[0,360). -/
theorem C6_bearing_ranges (d : RegattaData) (from_ to_ : ℕ) (time : ℝ)
    (hf : from_ < d.boeien.length) (ht : to_ < d.boeien.length)
    (hcf : (d.boeien.getD from_ default).lat.isSome = true ∧
      (d.boeien.getD from_ default).long.isSome = true)
    (hct : (d.boeien.getD to_ default).lat.isSome = true ∧
      (d.boeien.getD to_ default).long.isSome = true)
    (hw : 0 ≤ (d.windAt time).wind_angle ∧ (d.windAt time).wind_angle ≤ 360) :
    (0 ≤ (estimate_leg_performance d from_ to_ time).relative_bearing ∧
      (estimate_leg_performance d from_ to_ time).relative_bearing ≤ 180) ∧
    (0 ≤ (estimate_leg_performance d from_ to_ time).course_bearing ∧
      (estimate_leg_performance d from_ to_ time).course_bearing < 360) :=
  estimate_bearing_ranges d from_ to_ time hw.1 hw.2

/-- Witness for C6 at the two-buoy dataset at time 0. -/
theorem C6_bearing_ranges_witness :
    (0 < scAB.boeien.length ∧ 1 < scAB.boeien.length ∧
      0 ≤ (scAB.windAt 0).wind_angle ∧ (scAB.windAt 0).wind_angle ≤ 360) ∧
    ((0 ≤ (estimate_leg_performance scAB 0 1 0).relative_bearing ∧
      (estimate_leg_performance scAB 0 1 0).relative_bearing ≤ 180) ∧
    (0 ≤ (estimate_leg_performance scAB 0 1 0).course_bearing ∧
      (estimate_leg_performance scAB 0 1 0).course_bearing < 360)) :=
  ⟨⟨by decide, by decide, by norm_num [scAB, scWind], by norm_num [scAB, scWind]⟩,
    C6_bearing_ranges scAB 0 1 0 (by decide) (by decide) ⟨rfl, rfl⟩ ⟨rfl, rfl⟩
      ⟨by norm_num [scAB, scWind], by norm_num [scAB, scWind]⟩⟩

/-- C7: every step of every path returned by either explorer lasts exactly
distance/speed hours when the estimated speed is positive and distance/1
hours (the nominal 1-knot fallback) when it is 0. -/
theorem C7_travel_time (d : RegattaData) (start tgt : ℕ) (t0 : ℝ) (n : ℕ)
    (mp : Option ℕ) (ps : List Path) (p : Path) (s : Step)
    (hret : explore_paths d start t0 n mp = .ok ps ∨
      explore_target_paths d start tgt t0 n mp = .ok ps)
    (hp : p ∈ ps) (hs : s ∈ p.steps) : StepTimeEq s := by
  rcases hret with h | h
  · exact (explore_paths_sound d start t0 n mp ps h p hp).2.2.1 s hs
  · exact (explore_target_paths_sound d start tgt t0 n mp ps h p hp).2.2.1 s hs

/-- Witness for C7: the step A→B of the two-buoy dataset. -/
theorem C7_travel_time_witness :
    (explore_target_paths scAB 0 1 0 1 none = .ok [pAB] ∧ pAB ∈ [pAB] ∧
      stepAB ∈ pAB.steps) ∧ StepTimeEq stepAB :=
  ⟨⟨etp_scAB_eval, by simp, by simp [pAB]⟩,
    C7_travel_time scAB 0 1 0 1 none [pAB] pAB stepAB
      (Or.inr etp_scAB_eval) (by simp) (by simp [pAB])⟩

/-- Counterexample to C8 as stated: calling `explore_target_paths` with
`target = start` (valid index 0 of `scAB`) does NOT produce a typed
failure; it succeeds immediately with one zero-step path. -/
theorem C8_counterexample :
    explore_target_paths scAB 0 0 0 5 none = .ok [⟨[], 0, 0⟩] := by
  unfold explore_target_paths
  rw [if_neg (by decide), if_neg (by decide)]
  congr 1
  rw [etpRec_push _ _ _ _ rfl]
  rfl

/-- C8 (amended): `target = start` is not rejected: whenever the index is
valid, `explore_target_paths` immediately succeeds with exactly one
zero-step path (end time = start time, zero distance); no typed failure
is raised. -/
theorem C8_start_eq_target (d : RegattaData) (i : ℕ) (t0 : ℝ) (maxSteps : ℕ)
    (mp : Option ℕ) (hi : i < d.boeien.length) :
    explore_target_paths d i i t0 maxSteps mp = .ok [⟨[], 0, t0⟩] := by
  unfold explore_target_paths
  rw [if_neg (by omega), if_neg (by omega)]
  congr 1
  rw [etpRec_push _ _ _ _ rfl]
  rfl

/-- Witness for C8 (amended) at the two-buoy dataset. -/
theorem C8_start_eq_target_witness :
    0 < scAB.boeien.length ∧
      explore_target_paths scAB 0 0 3 7 (some 5) = .ok [⟨[], 0, 3⟩] :=
  ⟨by decide, C8_start_eq_target scAB 0 3 7 (some 5) (by decide)⟩

/-- C9: every returned path of either explorer is a contiguous chain: the
first step leaves the start, consecutive steps agree on node and time, the
total distance is the sum of the step distances, and the end time is the
last step's end time (the start time for a stepless path). -/
theorem C9_chain (d : RegattaData) (start tgt : ℕ) (t0 : ℝ) (n : ℕ)
    (mp : Option ℕ) (ps : List Path) (p : Path)
    (hret : explore_paths d start t0 n mp = .ok ps ∨
      explore_target_paths d start tgt t0 n mp = .ok ps)
    (hp : p ∈ ps) :
    (∀ h0 : p.steps ≠ [], (p.steps.head h0).from_ = start) ∧
    (∀ i, ∀ h : i + 1 < p.steps.length,
      (p.steps.get ⟨i, Nat.lt_of_succ_lt h⟩).to_ =
        (p.steps.get ⟨i + 1, h⟩).from_ ∧
      (p.steps.get ⟨i, Nat.lt_of_succ_lt h⟩).end_time =
        (p.steps.get ⟨i + 1, h⟩).start_time) ∧
    p.total_distance = (p.steps.map Step.distance).sum ∧
    p.end_time = p.steps.getLast?.elim t0 Step.end_time := by
  have hchain : ∃ q, ChainSteps start t0 p.steps q p.end_time := by
    rcases hret with h | h
    · exact (explore_paths_sound d start t0 n mp ps h p hp).1
    · exact ⟨tgt, (explore_target_paths_sound d start tgt t0 n mp ps h p hp).1⟩
  have hdist : p.total_distance = (p.steps.map Step.distance).sum := by
    rcases hret with h | h
    · exact (explore_paths_sound d start t0 n mp ps h p hp).2.1
    · exact (explore_target_paths_sound d start tgt t0 n mp ps h p hp).2.1
  obtain ⟨q, hc⟩ := hchain
  refine ⟨?_, ?_, hdist, ?_⟩
  · intro h0
    exact (chainSteps_head start t0 p.steps q p.end_time hc h0).1
  · intro i h
    exact chainSteps_adjacent start t0 p.steps q p.end_time hc i h
  · by_cases h0 : p.steps = []
    · rw [h0] at hc ⊢
      simpa using hc.2
    · rw [List.getLast?_eq_getLast p.steps h0]
      simpa using
        ((chainSteps_getLast start t0 p.steps q p.end_time hc h0).2).symm

/-- Witness for C9: the one-step path A→B of the two-buoy dataset. -/
theorem C9_chain_witness :
    (explore_target_paths scAB 0 1 0 1 none = .ok [pAB] ∧ pAB ∈ [pAB] ∧
      pAB.steps ≠ []) ∧
    (pAB.steps.head (by simp [pAB])).from_ = 0 ∧
    pAB.total_distance = (pAB.steps.map Step.distance).sum ∧
    pAB.end_time = pAB.steps.getLast?.elim 0 Step.end_time :=
  ⟨⟨etp_scAB_eval, by simp, by simp [pAB]⟩,
    (C9_chain scAB 0 1 0 1 none [pAB] pAB (Or.inr etp_scAB_eval) (by simp)).1 _,
    (C9_chain scAB 0 1 0 1 none [pAB] pAB (Or.inr etp_scAB_eval) (by simp)).2.2.1,
    (C9_chain scAB 0 1 0 1 none [pAB] pAB (Or.inr etp_scAB_eval) (by simp)).2.2.2⟩

/-- C10: both explorers compare the `u8` usage counter against
`max_number` truncated to `u8`, so the effective per-entity limit is
`max_number % 256`; in particular an entity with `max_number = 256` is
never traversed: every returned path is realized by a walk avoiding it. -/
theorem C10_effective_mod256 (d : RegattaData) (start tgt : ℕ) (t0 : ℝ)
    (n : ℕ) (mp : Option ℕ) (ps : List Path) (p : Path) (i0 : ℕ)
    (hret : explore_paths d start t0 n mp = .ok ps ∨
      explore_target_paths d start tgt t0 n mp = .ok ps)
    (hp : p ∈ ps) (hmax : entityMax d i0 = 256) :
    ∃ es : List GEdge,
      (∀ e ∈ es, e ∈ graphEdgeList d) ∧ StepsMatch es p.steps ∧
        (∀ i, entityCount d es i ≤ entityMax d i % 256) ∧
        entityCount d es i0 = 0 := by
  have hes : ∃ es, (∀ e ∈ es, e ∈ graphEdgeList d) ∧ StepsMatch es p.steps ∧
      ∀ i, entityCount d es i ≤ entityMax d i % 256 := by
    rcases hret with h | h
    · obtain ⟨_, _, _, es, hg, hm, hb⟩ :=
        explore_paths_sound d start t0 n mp ps h p hp
      exact ⟨es, hg, hm, hb⟩
    · obtain ⟨_, _, _, es, hg, hm, hb, _⟩ :=
        explore_target_paths_sound d start tgt t0 n mp ps h p hp
      exact ⟨es, hg, hm, hb⟩
  obtain ⟨es, hg, hm, hb⟩ := hes
  refine ⟨es, hg, hm, hb, ?_⟩
  have h2 := hb i0
  rw [hmax] at h2
  omega

/-- Witness for C10 at `sc256`: its first leg has `max_number = 256`; the
returned path A→B is realized through the second, parallel leg only. -/
theorem C10_effective_mod256_witness :
    (explore_paths sc256 0 0 1 none = .ok [pAB] ∧ pAB ∈ [pAB] ∧
      entityMax sc256 0 = 256) ∧
    ∃ es : List GEdge,
      (∀ e ∈ es, e ∈ graphEdgeList sc256) ∧ StepsMatch es pAB.steps ∧
        (∀ i, entityCount sc256 es i ≤ entityMax sc256 i % 256) ∧
        entityCount sc256 es 0 = 0 :=
  ⟨⟨explore_paths_sc256_eval, by simp, by decide⟩,
    C10_effective_mod256 sc256 0 0 0 1 none [pAB] pAB 0
      (Or.inl explore_paths_sc256_eval) (by simp) (by decide)⟩

end Uurs24
